import Mathlib

/-!
Verification of the remote-file-fact module (pyinfra/facts/files.py).

The Python source is shallowly embedded: each fact's `command` builder and
`process` parser becomes an executable Lean function.  Python exceptions are
modelled by an explicit error constructor in the result type, Python `None`
by an `absent`/`Option.none` value, and Python dicts by ordered association
lists with insert-or-overwrite update.  String helpers (`str.split`,
`str.strip`, `%`-interpolation, whitespace splitting with maxsplit) are
embedded over `List Char` following CPython semantics (ASCII whitespace).
-/

set_option maxRecDepth 4000

/-- ASCII whitespace, as recognised by CPython string splitting and the
regex class `\s` on ASCII input. -/
def pyIsSpace (c : Char) : Bool :=
  c = ' ' || c = '\t' || c = '\n' || c = '\r' || c = '\x0b' || c = '\x0c'

/-- ASCII `[a-zA-Z0-9]`, the character class used by the checksum regexes. -/
def isAlnumAscii (c : Char) : Bool :=
  ('0' ≤ c && c ≤ '9') || ('a' ≤ c && c ≤ 'z') || ('A' ≤ c && c ≤ 'Z')

/-- ASCII hexadecimal digit (the characters appearing in a hex digest). -/
def isHexAscii (c : Char) : Bool :=
  ('0' ≤ c && c ≤ '9') || ('a' ≤ c && c ≤ 'f') || ('A' ≤ c && c ≤ 'F')

/-- The apostrophe character, kept as a named constant. -/
def squote : Char := Char.ofNat 39

/-- Python `s[a:b]` slicing for `0 ≤ a ≤ b` (never raises, short slices are
silently short). -/
def pySlice (s : String) (a b : Nat) : String :=
  String.mk ((s.data.drop a).take (b - a))

/-- Digit-string to number fold: the effect of Python `int(...)` on a string
of decimal digit characters (the only shape `_parse_mode` produces). -/
def intOfDigits (s : String) : Nat :=
  s.data.foldl (fun n c => n * 10 + (c.toNat - 48)) 0

/-- Worker for Python `s.split(sep)` with non-empty `sep = c0 :: sr`:
left-to-right, non-overlapping occurrences.  The `fuel` argument only
makes the recursion structural; every step consumes at least one input
character, so the initial fuel `s.length` is never exhausted. -/
def pySplitGo (c0 : Char) (sr : List Char) : Nat → List Char → List Char → List (List Char)
  | _, [], acc => [acc.reverse]
  | 0, l, acc => [acc.reverse ++ l]
  | fuel + 1, c :: rest, acc =>
    if c = c0 && sr.isPrefixOf rest then
      acc.reverse :: pySplitGo c0 sr fuel (rest.drop sr.length) []
    else
      pySplitGo c0 sr fuel rest (c :: acc)

/-- Python `s.split(sep)` for a non-empty separator. -/
def pySplit (s sep : String) : List String :=
  match sep.data with
  | [] => [s]
  | c0 :: sr => (pySplitGo c0 sr s.data.length s.data []).map String.mk

/-- Python `s.strip(c)`: remove every leading and trailing occurrence of the
character `c`. -/
def pyStrip (s : String) (c : Char) : String :=
  String.mk (((s.data.dropWhile (· = c)).reverse.dropWhile (· = c)).reverse)

/-- Worker for Python `s.split(None, maxsplit)` as a character state
machine: skip whitespace runs, emit up to `maxs` tokens (`acc` holds the
reversed current token), then the remainder (leading whitespace skipped,
trailing whitespace kept) as the final element. -/
def pySplitWsGo : List Char → Nat → List Char → List String
  | [], _, acc => if acc.isEmpty then [] else [String.mk acc.reverse]
  | c :: rest, maxs, acc =>
    if acc.isEmpty then
      if pyIsSpace c then pySplitWsGo rest maxs []
      else if maxs = 0 then [String.mk (c :: rest)]
      else pySplitWsGo rest maxs [c]
    else
      if pyIsSpace c then String.mk acc.reverse :: pySplitWsGo rest (maxs - 1) []
      else pySplitWsGo rest maxs (c :: acc)

/-- Python `s.split(None, maxsplit)`. -/
def pySplitWsMax (s : String) (maxs : Nat) : List String :=
  pySplitWsGo s.data maxs []

/-- Python `int(str)` (`None` when a `ValueError` would be raised): optional
surrounding whitespace, optional sign, at least one decimal digit. -/
def pyToInt (s : String) : Option Int :=
  let t := (s.data.dropWhile pyIsSpace).reverse.dropWhile pyIsSpace |>.reverse
  let digits (ds : List Char) : Option Nat :=
    if ds ≠ [] && ds.all Char.isDigit then
      some (ds.foldl (fun n c => n * 10 + (c.toNat - 48)) 0)
    else none
  match t with
  | '-' :: ds => (digits ds).map (fun n => -(n : Int))
  | '+' :: ds => (digits ds).map (fun n => (n : Int))
  | ds => (digits ds).map (fun n => (n : Int))

/-- Modelled from the spec: helper `try_int` (pyinfra.api.util, outside the
given sources) — "integer (leave as raw string if non-numeric, never
fail)"; `some` is the parsed integer, `none` means the raw string is kept. -/
def try_int (s : String) : Option Int := pyToInt s

/-- Modelled from the spec: the external path-escaping collaborator
`escape_unix_path` (outside the given sources) — quotes a path for safe
inclusion in a shell fragment; modelled as escaping each space with a
backslash, identity on all other characters. -/
def escape_unix_path (path : String) : String :=
  String.mk (path.data.foldr (fun c acc => if c = ' ' then '\\' :: c :: acc else c :: acc) [])

/-- Modelled from the spec: the external pattern-quoting collaborator
(`shlex_quote`, outside the given sources); modelled as wrapping the
pattern in single quotes.  No claim inspects its output's structure. -/
def shlex_quote (s : String) : String :=
  String.mk (squote :: s.data ++ [squote])

/-- The `SYMBOL_TO_OCTAL_PERMISSIONS` table of the source, as a lookup
function: symbolic 3-character group to octal digit character. -/
def symLookup (g : String) : Option Char :=
  if g = "rwx" then some '7'
  else if g = "rw-" then some '6'
  else if g = "r-x" then some '5'
  else if g = "r--" then some '4'
  else if g = "-wx" then some '3'
  else if g = "-w-" then some '2'
  else if g = "--x" then some '1'
  else none

/-- `_parse_mode` of the source: split the 9-character symbolic permission
string into three 3-character slices, map each through the table (`'0'` on a
miss), and read the resulting 3-digit string as a decimal integer. -/
def _parse_mode (mode : String) : Nat :=
  let result := [pySlice mode 0 3, pySlice mode 3 6, pySlice mode 6 9].foldl
    (fun acc g =>
      match symLookup g with
      | some c => acc ++ String.mk [c]
      | none => acc ++ "0") ""
  intOfDigits result

/-- The digit character `_parse_mode` contributes for one 3-character
group. -/
def digChar (g : String) : Char :=
  match symLookup g with
  | some c => c
  | none => '0'

/-- Follows the claim text (spec side, for comparison with the source
definition): the value of one 3-character group — the sum read=4, write=2,
execute=1 when the group is one of the 8 canonical combinations of
`r`/`w`/`x`/`-` in fixed positions, and 0 for any other group. -/
def specGroupVal (g : String) : Nat :=
  match g.data with
  | [a, b, c] =>
    if ((a = 'r' || a = '-') && (b = 'w' || b = '-') && (c = 'x' || c = '-') : Bool) then
      (if a = 'r' then 4 else 0) + (if b = 'w' then 2 else 0) + (if c = 'x' then 1 else 0)
    else 0
  | _ => 0

/-- Tokens of the compiled regular expressions used by the checksum facts:
a literal character, `.`, `\s+`, and a capturing group `([a-zA-Z0-9]{n})`. -/
inductive RTok where
  | lit (c : Char)
  | dot
  | spacePlus
  | grpAlnum (n : Nat)
deriving DecidableEq

/-- Characters that are not plain literals in a regex (metacharacters and
the escape lead-in); a bare occurrence outside the recognised token shapes
makes compilation fail. -/
def reMetaCheck (c : Char) : Bool :=
  c = '^' || c = '$' || c = '*' || c = '+' || c = '?' || c = '{' || c = '}' ||
  c = '[' || c = ']' || c = '(' || c = ')' || c = '|' || c = '\\'

/-- Lookahead after a backslash: the escape sequences occurring in the
templates and in escaped paths (`\s+`, `\(`, `\)`, `\ `), with the number
of characters they consume. -/
def matchEscTok (rest : List Char) : Option (RTok × Nat) :=
  if rest.take 2 = ['s', '+'] then some (RTok.spacePlus, 2)
  else if rest.take 1 = ['('] then some (RTok.lit '(', 1)
  else if rest.take 1 = [')'] then some (RTok.lit ')', 1)
  else if rest.take 1 = [' '] then some (RTok.lit ' ', 1)
  else none

/-- Lookahead after an opening parenthesis: the capturing group
`([a-zA-Z0-9]{dd})` with a two-digit repetition count, consuming 16
characters after the `(`. -/
def matchGrpTok (rest : List Char) : Option (RTok × Nat) :=
  if rest.take 12 = ('[' :: 'a' :: '-' :: 'z' :: 'A' :: '-' :: 'Z' :: '0' :: '-' :: '9' ::
      ']' :: '{' :: []) then
    match rest.drop 12 with
    | d1 :: d2 :: r2 =>
      if d1.isDigit && d2.isDigit && r2.take 2 = ['}', ')'] then
        some (RTok.grpAlnum ((d1.toNat - 48) * 10 + (d2.toNat - 48)), 16)
      else none
    | _ => none
  else none

/-- Compiler for the fragment of Python regex syntax the checksum fact
patterns use (after `%`-interpolation of the escaped path): literal
characters, `.`, `\s+`, `\(`, `\)`, escaped space, a final `$`, and
`([a-zA-Z0-9]{dd})`.  `none` means no match of the fragment (a pattern
outside it).  The `fuel` argument only makes the recursion structural:
every step consumes at least one character, so fuel equal to the pattern
length is never exhausted. -/
def compAux : Nat → List Char → Option (List RTok)
  | _, [] => none
  | 0, _ :: _ => none
  | fuel + 1, c :: rest =>
    if c = '$' then (if rest.isEmpty then some [] else none)
    else if c = '\\' then
      match matchEscTok rest with
      | some (tok, k) => (compAux fuel (rest.drop k)).map (fun t => tok :: t)
      | none => none
    else if c = '(' then
      match matchGrpTok rest with
      | some (tok, k) => (compAux fuel (rest.drop k)).map (fun t => tok :: t)
      | none => none
    else if c = '.' then (compAux fuel rest).map (fun t => RTok.dot :: t)
    else if reMetaCheck c then none
    else (compAux fuel rest).map (fun t => RTok.lit c :: t)

/-- Compile a full pattern: the leading `^` of the templates doubles as the
`re.match` start anchor. -/
def compile (pattern : String) : Option (List RTok) :=
  match pattern.data with
  | '^' :: rest => compAux rest.length rest
  | _ => none

/-- All suffixes reachable by consuming one or more leading whitespace
characters, longest consumption first (the greedy backtracking order of
`\s+`). -/
def spaceTails : List Char → List (List Char)
  | [] => []
  | x :: xs => if pyIsSpace x then spaceTails xs ++ [xs] else []

/-- Run a compiled pattern against the whole input (the trailing `$` of the
templates makes every match end-anchored): the capture lists of all
successful matches, in backtracking order. -/
def runRE : List RTok → List Char → List (List String)
  | [], s => if s.isEmpty then [[]] else []
  | RTok.lit c :: r, s =>
    match s with
    | [] => []
    | x :: xs => if x = c then runRE r xs else []
  | RTok.dot :: r, s =>
    match s with
    | [] => []
    | _ :: xs => runRE r xs
  | RTok.spacePlus :: r, s => (spaceTails s).flatMap (fun s1 => runRE r s1)
  | RTok.grpAlnum n :: r, s =>
    if n ≤ s.length && (s.take n).all isAlnumAscii then
      (runRE r (s.drop n)).map (fun caps => String.mk (s.take n) :: caps)
    else []

/-- Python `re.match(pattern, line)` followed by `.group(1)`, for the
modelled fragment: `none` is no match (or a pattern outside the fragment),
`some none` a match without a capture group (the source would raise),
`some (some d)` the first match's first capture. -/
def reMatchGroup1 (pattern line : String) : Option (Option String) :=
  (compile pattern).bind fun toks =>
    match runRE toks line.data with
    | [] => none
    | caps :: _ => some caps.head?

/-- Python `template % name` for the single-`%s` regex templates. -/
def pyPctS (template name : String) : String :=
  match pySplit template "%s" with
  | [a, b] => a ++ name ++ b
  | _ => template

/-- Result of a checksum fact's `process`: raised exception, a digest, or
Python `None` (absent). -/
inductive HashResult where
  | err
  | digest (d : String)
  | absent
deriving DecidableEq

/-- The regex loop of the checksum facts' `process`: try each template in
order against the line, with the stored path interpolated; return the
first match's group 1. -/
def tryRegexList : List String → String → String → HashResult
  | [], _, _ => .absent
  | r :: rs, name, line =>
    match reMatchGroup1 (pyPctS r name) line with
    | some (some d) => .digest d
    | some none => .err
    | none => tryRegexList rs name line

/-- Shared shape of the checksum facts' `process`: index the first output
line (exception on empty output), then try the regexes in order. -/
def checksumProcess (regexes : List String) (name : String)
    (output : List String) : HashResult :=
  match output with
  | [] => .err
  | line :: _ => tryRegexList regexes name line

/-- `Sha1File._regexes` of the source. -/
def Sha1File.regexes : List String :=
  ["^([a-zA-Z0-9]{40})\\s+%s$", "^SHA1\\s+\\(%s\\)\\s+=\\s+([a-zA-Z0-9]{40})$"]

/-- `Sha1File.command`: escapes the path, stores it on the instance (the
second component is the new instance state `self.name`, overwriting any
previous value), and builds the fallback tool chain. -/
def Sha1File.command (_st : String) (name : String) : String × String :=
  let n := escape_unix_path name
  ("sha1sum " ++ n ++ " 2> /dev/null || shasum " ++ n ++ " 2> /dev/null || sha1 " ++ n, n)

/-- `Sha1File.process`, parametrised by the stored instance state
`self.name`. -/
def Sha1File.process (st : String) (output : List String) : HashResult :=
  checksumProcess Sha1File.regexes st output

/-- `Sha256File._regexes` of the source. -/
def Sha256File.regexes : List String :=
  ["^([a-zA-Z0-9]{64})\\s+%s$", "^SHA256\\s+\\(%s\\)\\s+=\\s+([a-zA-Z0-9]{64})$"]

/-- `Sha256File.command`. -/
def Sha256File.command (_st : String) (name : String) : String × String :=
  let n := escape_unix_path name
  ("sha256sum " ++ n ++ " 2> /dev/null || shasum -a 256 " ++ n ++
    " 2> /dev/null || sha256 " ++ n, n)

/-- `Sha256File.process`. -/
def Sha256File.process (st : String) (output : List String) : HashResult :=
  checksumProcess Sha256File.regexes st output

/-- `Md5File._regexes` of the source, verbatim: the second, BSD-style
template spells the literal `SHA256`, not `MD5`. -/
def Md5File.regexes : List String :=
  ["^([a-zA-Z0-9]{32})\\s+%s$", "^SHA256\\s+\\(%s\\)\\s+=\\s+([a-zA-Z0-9]{32})$"]

/-- `Md5File.command`. -/
def Md5File.command (_st : String) (name : String) : String × String :=
  let n := escape_unix_path name
  ("md5sum " ++ n ++ " 2> /dev/null || md5 " ++ n, n)

/-- `Md5File.process`. -/
def Md5File.process (st : String) (output : List String) : HashResult :=
  checksumProcess Md5File.regexes st output

/-- `FindInFile.command`: escapes the path, quotes the pattern, stores the
escaped path on the instance (second component, the new state), and builds
the grep command with the path-specific existence sentinel in the
fallback branch. -/
def FindInFile.command (_st : String) (name pattern : String) : String × String :=
  let n := escape_unix_path name
  let p := shlex_quote pattern
  ("grep -e " ++ p ++ " " ++ n ++ " 2> /dev/null || (find " ++ n ++
    " -type f > /dev/null && echo \"__pyinfra_exists_" ++ n ++ "\")", n)

/-- `FindInFile.process`, parametrised by the stored `self.name`: a first
line equal to the sentinel means no matches in an existing file (empty
list); otherwise the output lines are returned unchanged (an empty output
is falsy, so the sentinel test is skipped and the empty list returned). -/
def FindInFile.process (st : String) (output : List String) : List String :=
  match output with
  | [] => []
  | first :: restL => if first = "__pyinfra_exists_" ++ st then [] else first :: restL

/-- Characters with no regex meaning: spliced into a pattern they match
themselves literally (the alphabet of the amended C7 path quantifier). -/
def regexLiteralChar (c : Char) : Bool :=
  isAlnumAscii c || c = '/' || c = '_' || c = '-'

theorem parse_mode_eq (m : String) :
    _parse_mode m =
      ((digChar (pySlice m 0 3)).toNat - 48) * 100 +
      ((digChar (pySlice m 3 6)).toNat - 48) * 10 +
      ((digChar (pySlice m 6 9)).toNat - 48) := by
  have h : ∀ (g acc : String), (match symLookup g with
      | some c => acc ++ String.mk [c]
      | none => acc ++ "0") = acc ++ String.mk [digChar g] := by
    intro g acc; unfold digChar; cases symLookup g <;> rfl
  unfold _parse_mode
  simp only [List.foldl_cons, List.foldl_nil, h]
  generalize digChar (pySlice m 0 3) = a
  generalize digChar (pySlice m 3 6) = b
  generalize digChar (pySlice m 6 9) = c
  show intOfDigits (String.mk [a, b, c]) = _
  show ((0 * 10 + (a.toNat - 48)) * 10 + (b.toNat - 48)) * 10 + (c.toNat - 48) = _
  omega

theorem digChar_cases (g : String) :
    digChar g = '0' ∨ digChar g = '1' ∨ digChar g = '2' ∨ digChar g = '3' ∨
    digChar g = '4' ∨ digChar g = '5' ∨ digChar g = '6' ∨ digChar g = '7' := by
  unfold digChar symLookup
  split_ifs <;> decide

theorem digVal_le (g : String) : (digChar g).toNat - 48 ≤ 7 := by
  rcases digChar_cases g with h | h | h | h | h | h | h | h <;> rw [h] <;> decide

theorem digChar_spec (g : String) : (digChar g).toNat - 48 = specGroupVal g := by
  by_cases h1 : g = "rwx"
  · subst h1; decide
  by_cases h2 : g = "rw-"
  · subst h2; decide
  by_cases h3 : g = "r-x"
  · subst h3; decide
  by_cases h4 : g = "r--"
  · subst h4; decide
  by_cases h5 : g = "-wx"
  · subst h5; decide
  by_cases h6 : g = "-w-"
  · subst h6; decide
  by_cases h7 : g = "--x"
  · subst h7; decide
  have hd : digChar g = '0' := by
    unfold digChar symLookup
    simp [h1, h2, h3, h4, h5, h6, h7]
  rw [hd]
  obtain ⟨l⟩ := g
  rcases l with _ | ⟨a, _ | ⟨b, _ | ⟨c, _ | ⟨d, t⟩⟩⟩⟩
  · rfl
  · rfl
  · rfl
  · by_cases hA : (a = 'r' ∨ a = '-') ∧ (b = 'w' ∨ b = '-') ∧ (c = 'x' ∨ c = '-')
    · obtain ⟨rfl | rfl, rfl | rfl, rfl | rfl⟩ := hA
      · exact absurd (by decide) h1
      · exact absurd (by decide) h2
      · exact absurd (by decide) h3
      · exact absurd (by decide) h4
      · exact absurd (by decide) h5
      · exact absurd (by decide) h6
      · exact absurd (by decide) h7
      · decide
    · have hB : ¬(((a = 'r' || a = '-') && (b = 'w' || b = '-') && (c = 'x' || c = '-')) = true) := by
        simp only [Bool.and_eq_true, Bool.or_eq_true, decide_eq_true_eq]
        exact fun h => hA ⟨h.1.1, h.1.2, h.2⟩
      simp only [specGroupVal]
      rw [if_neg hB]
      rfl
  · show '0'.toNat - 48 = 0
    rfl

theorem pySlice_append3_0 (g1 g2 g3 : String) (h1 : g1.data.length = 3) :
    pySlice (g1 ++ g2 ++ g3) 0 3 = g1 := by
  obtain ⟨a⟩ := g1; obtain ⟨b⟩ := g2; obtain ⟨c⟩ := g3
  show String.mk (((a ++ b ++ c).drop 0).take 3) = String.mk a
  rw [List.drop_zero, List.append_assoc]
  rw [show (3 : Nat) = a.length from h1.symm, List.take_left]

theorem pySlice_append3_1 (g1 g2 g3 : String)
    (h1 : g1.data.length = 3) (h2 : g2.data.length = 3) :
    pySlice (g1 ++ g2 ++ g3) 3 6 = g2 := by
  obtain ⟨a⟩ := g1; obtain ⟨b⟩ := g2; obtain ⟨c⟩ := g3
  show String.mk (((a ++ b ++ c).drop 3).take (6 - 3)) = String.mk b
  rw [List.append_assoc]
  rw [show ((a ++ (b ++ c)).drop 3) = (a ++ (b ++ c)).drop a.length by rw [h1]]
  rw [List.drop_left]
  show String.mk ((b ++ c).take 3) = String.mk b
  rw [show (3 : Nat) = b.length from h2.symm, List.take_left]

theorem pySlice_append3_2 (g1 g2 g3 : String)
    (h1 : g1.data.length = 3) (h2 : g2.data.length = 3) (h3 : g3.data.length = 3) :
    pySlice (g1 ++ g2 ++ g3) 6 9 = g3 := by
  obtain ⟨a⟩ := g1; obtain ⟨b⟩ := g2; obtain ⟨c⟩ := g3
  show String.mk (((a ++ b ++ c).drop 6).take (9 - 6)) = String.mk c
  rw [List.append_assoc]
  rw [show ((a ++ (b ++ c)).drop 6) = ((a ++ (b ++ c)).drop 3).drop 3 by
    rw [List.drop_drop]]
  rw [show ((a ++ (b ++ c)).drop 3) = (a ++ (b ++ c)).drop a.length by rw [h1]]
  rw [List.drop_left]
  rw [show ((b ++ c).drop 3) = (b ++ c).drop b.length by rw [h2]]
  rw [List.drop_left]
  show String.mk (c.take 3) = String.mk c
  rw [show (3 : Nat) = c.length from h3.symm, List.take_length]

/-- C1: for every 9-character symbolic permission string made of three
3-character groups, `_parse_mode` returns the integer whose decimal digits
are the per-group sums read=4/write=2/execute=1 for the 8 canonical
`r`/`w`/`x`/`-` groups, with digit 0 contributed by any non-canonical group
(no error raised); `specGroupVal` is the claim-side per-group value. -/
theorem c1_parse_mode_encodes (g1 g2 g3 : String)
    (h1 : g1.data.length = 3) (h2 : g2.data.length = 3) (h3 : g3.data.length = 3) :
    _parse_mode (g1 ++ g2 ++ g3) =
      100 * specGroupVal g1 + 10 * specGroupVal g2 + specGroupVal g3 := by
  rw [parse_mode_eq, pySlice_append3_0 g1 g2 g3 h1, pySlice_append3_1 g1 g2 g3 h1 h2,
    pySlice_append3_2 g1 g2 g3 h1 h2 h3, digChar_spec, digChar_spec, digChar_spec]
  ring

/-- Witness for C1 at the spec's own example: the groups of `rwxr-xr--`
encode to 754. -/
theorem c1_parse_mode_encodes_witness :
    ("rwx" : String).data.length = 3 ∧ ("r-x" : String).data.length = 3 ∧
    ("r--" : String).data.length = 3 ∧
    _parse_mode ("rwx" ++ "r-x" ++ "r--") =
      100 * specGroupVal "rwx" + 10 * specGroupVal "r-x" + specGroupVal "r--" ∧
    _parse_mode "rwxr-xr--" = 754 :=
  ⟨by decide, by decide, by decide,
    c1_parse_mode_encodes "rwx" "r-x" "r--" (by decide) (by decide) (by decide),
    by decide⟩

/-- A value stored in the parsed stat dictionary: a raw string, an integer
(from `_parse_mode`/`try_int`), or a timestamp (the source converts integer
epoch seconds with `datetime.utcfromtimestamp`; the instant is kept as the
integer). -/
inductive FieldValue where
  | vStr (s : String)
  | vInt (n : Int)
  | vTime (n : Int)
deriving DecidableEq

/-- The parsed stat dictionary: insertion-ordered key/value pairs with
overwrite-in-place update, like a Python dict. -/
abbrev StatData := List (String × FieldValue)

/-- Outcome of `File.process`: a raised exception, Python `False` (absent),
or the metadata dict. -/
inductive StatResult where
  | err
  | absent
  | meta (d : StatData)
deriving DecidableEq

/-- The `FLAG_TO_TYPE` table of the source. -/
def flagToType (c : Char) : Option String :=
  if c = 'b' then some "block"
  else if c = 'c' then some "character"
  else if c = 'd' then some "directory"
  else if c = 'l' then some "link"
  else if c = 's' then some "socket"
  else if c = 'p' then some "fifo"
  else if c = '-' then some "file"
  else none

/-- Smallest integer accepted by Python `datetime.utcfromtimestamp`
(0001-01-01T00:00:00). -/
def tsMin : Int := -62135596800

/-- Largest integer accepted by Python `datetime.utcfromtimestamp`
(9999-12-31T23:59:59). -/
def tsMax : Int := 253402300799

/-- Python-dict assignment `d[k] = v`: overwrite in place if the key
exists, else append. -/
def dictSet (d : StatData) (k : String) (v : FieldValue) : StatData :=
  match d with
  | [] => [(k, v)]
  | (k1, v1) :: rest => if k1 = k then (k, v) :: rest else (k1, v1) :: dictSet rest k v

/-- Python-dict lookup `d[k]` (`none` when missing). -/
def dictGet (d : StatData) (k : String) : Option FieldValue :=
  match d with
  | [] => none
  | (k1, v1) :: rest => if k1 = k then some v1 else dictGet rest k

/-- Whether a key is one of the three timestamp keys. -/
def timeKeys (k : String) : Bool := k = "atime" || k = "mtime" || k = "ctime"

/-- The `for bit in stat_bits` loop of `File.process`, threading the data
dict and `path_type`; `none` is a raised exception (`ValueError` from
unpacking a non-`key=value` token, `IndexError` on an empty mode value,
`KeyError` from `FLAG_TO_TYPE`, range error from `utcfromtimestamp`). -/
def processBits : List String → StatData → Option String → Option (StatData × Option String)
  | [], data, pt => some (data, pt)
  | bit :: rest, data, pt =>
    match pySplit bit "=" with
    | [key, value] =>
      if key = "mode" then
        match value.data with
        | [] => none
        | flag :: perms =>
          match flagToType flag with
          | none => none
          | some ty =>
            processBits rest (dictSet data key (.vInt (_parse_mode (String.mk perms)))) (some ty)
      else if key = "size" then
        processBits rest (dictSet data key
          (match try_int value with
            | some n => .vInt n
            | none => .vStr value)) pt
      else if timeKeys key then
        match try_int value with
        | some n =>
          if tsMin ≤ n && n ≤ tsMax then processBits rest (dictSet data key (.vTime n)) pt
          else none
        | none => processBits rest (dictSet data key (.vStr value)) pt
      else processBits rest (dictSet data key (.vStr value)) pt
    | _ => none

/-- `File.process` of the source, parametrised by the fact's declared
`type` (`"file"` for `File`, `"link"` for `Link`, `"directory"` for
`Directory`, `"socket"` for `Socket`).  Splits the first output line into
at most 8 whitespace-delimited tokens, the last being the filename; parses
each remaining `key=value` token; returns absent on a type mismatch; for
links, splits the filename on `" -> "` and attaches the quote-stripped
target. -/
def File.process (ty : String) (output : List String) : StatResult :=
  match output with
  | [] => .err
  | line :: _ =>
    match pySplitWsMax line 7 with
    | [] => .err
    | b :: bs =>
      let filename := bs.getLastD b
      let statBits := (b :: bs).dropLast
      match processBits statBits [] none with
      | none => .err
      | some (data, pt) =>
        if pt = some ty then
          if ty = "link" then
            match pySplit filename " -> " with
            | [_, target] => .meta (dictSet data "link_target" (.vStr (pyStrip target squote)))
            | _ => .err
          else .meta data
        else .absent

/-- The `key=value` tokens of a stat line (all split tokens but the
last). -/
def statBitsOf (line : String) : List String :=
  (pySplitWsMax line 7).dropLast

/-- The key of one `key=value` token. -/
def tokKey (bit : String) : String :=
  match pySplit bit "=" with
  | k :: _ => k
  | [] => ""

/-- The `path_type` value after folding the given tokens, mirroring the
mode-token updates of `processBits`. -/
def lastModeTypeAux : List String → Option String → Option String
  | [], pt => pt
  | bit :: rest, pt =>
    lastModeTypeAux rest
      (match pySplit bit "=" with
        | [key, value] =>
          if key = "mode" then
            match value.data with
            | flag :: _ =>
              match flagToType flag with
              | some t => some t
              | none => pt
            | [] => pt
          else pt
        | _ => pt)

/-- The file type a stat line's last mode token resolves to. -/
def lastModeTypeLine (line : String) : Option String :=
  lastModeTypeAux (statBitsOf line) none

/-- A `key=value` token the bit loop survives: exactly one `=`, and for
mode tokens a non-empty value whose flag is in `FLAG_TO_TYPE`, and for
timestamp tokens an in-range epoch when numeric. -/
def bitOK (bit : String) : Bool :=
  match pySplit bit "=" with
  | [key, value] =>
    if key = "mode" then
      match value.data with
      | [] => false
      | flag :: _ => (flagToType flag).isSome
    else if key = "size" then true
    else if timeKeys key then
      match try_int value with
      | some n => tsMin ≤ n && n ≤ tsMax
      | none => true
    else true
  | _ => false

/-- A stat line `File.process` never raises on: non-empty, every
`key=value` token survives the loop, and when the resolved type matches a
link fact the filename splits on `" -> "` into exactly two parts. -/
def lineOK (ty line : String) : Bool :=
  match pySplitWsMax line 7 with
  | [] => false
  | b :: bs =>
    ((b :: bs).dropLast.all bitOK) &&
    (if lastModeTypeAux ((b :: bs).dropLast) none = some ty ∧ ty = "link" then
      (pySplit (bs.getLastD b) " -> ").length = 2
    else true)

/-- The link target the parser extracts from a stat line's filename field
(split on `" -> "`, quotes stripped). -/
def linkTargetOfLine (line : String) : String :=
  match pySplitWsMax line 7 with
  | [] => ""
  | b :: bs =>
    match pySplit (bs.getLastD b) " -> " with
    | [_, t] => pyStrip t squote
    | _ => ""

theorem dictGet_dictSet (d : StatData) (k k1 : String) (v : FieldValue) :
    dictGet (dictSet d k v) k1 = if k = k1 then some v else dictGet d k1 := by
  induction d with
  | nil => simp only [dictSet, dictGet]
  | cons p rest ih =>
    obtain ⟨k2, v2⟩ := p
    simp only [dictSet]
    by_cases h2 : k2 = k
    · subst h2
      rw [if_pos rfl]
      simp only [dictGet]
      by_cases h1 : k2 = k1 <;> simp [h1]
    · rw [if_neg h2]
      simp only [dictGet, ih]
      by_cases h1 : k2 = k1
      · subst h1
        rw [if_pos rfl, if_neg (fun hk => h2 hk.symm), if_pos rfl]
      · rw [if_neg h1]
        by_cases hk : k = k1 <;> simp [hk, h1]

theorem processBits_pt (bits : List String) : ∀ (d : StatData) (pt : Option String)
    (d1 : StatData) (pt1 : Option String),
    processBits bits d pt = some (d1, pt1) → pt1 = lastModeTypeAux bits pt := by
  induction bits with
  | nil =>
    intro d pt d1 pt1 h
    simp only [processBits, Option.some.injEq, Prod.mk.injEq] at h
    simp [lastModeTypeAux, ← h.2]
  | cons bit rest ih =>
    intro d pt d1 pt1 h
    simp only [processBits] at h
    split at h
    case h_2 => exact absurd h (by simp)
    case h_1 key value heq =>
      by_cases hkey : key = "mode"
      · subst hkey
        rw [if_pos rfl] at h
        split at h
        next hval =>
          exact absurd h (by simp)
        next flag perms hval =>
          split at h
          next hty =>
            exact absurd h (by simp)
          next ty hty =>
            have hg : lastModeTypeAux (bit :: rest) pt = lastModeTypeAux rest (some ty) := by
              simp [lastModeTypeAux, heq, hval, hty]
            rw [hg]
            exact ih _ _ _ _ h
      · have hg : lastModeTypeAux (bit :: rest) pt = lastModeTypeAux rest pt := by
          simp [lastModeTypeAux, heq, hkey]
        rw [hg]
        rw [if_neg hkey] at h
        by_cases hsize : key = "size"
        · rw [if_pos hsize] at h
          exact ih _ _ _ _ h
        · rw [if_neg hsize] at h
          by_cases htime : timeKeys key = true
          · rw [if_pos htime] at h
            split at h
            next n hn =>
              split at h
              · exact ih _ _ _ _ h
              · exact absurd h (by simp)
            next hn =>
              exact ih _ _ _ _ h
          · rw [if_neg htime] at h
            exact ih _ _ _ _ h

theorem processBits_ok (bits : List String) : ∀ (d : StatData) (pt : Option String),
    bits.all bitOK = true →
    ∃ d1, processBits bits d pt = some (d1, lastModeTypeAux bits pt) := by
  induction bits with
  | nil =>
    intro d pt _
    exact ⟨d, rfl⟩
  | cons bit rest ih =>
    intro d pt hall
    rw [List.all_cons, Bool.and_eq_true] at hall
    obtain ⟨hbit, hrest⟩ := hall
    unfold bitOK at hbit
    simp only [processBits]
    split at hbit
    case h_2 => exact absurd hbit (by simp)
    case h_1 key value heq =>
      by_cases hkey : key = "mode"
      · subst hkey
        rw [if_pos rfl] at hbit ⊢
        split at hbit
        next hval =>
          exact absurd hbit (by simp)
        next flag perms hval =>
          match hty : flagToType flag with
          | none => rw [hty] at hbit; exact absurd hbit (by simp)
          | some ty =>
            have hg : lastModeTypeAux (bit :: rest) pt = lastModeTypeAux rest (some ty) := by
              simp [lastModeTypeAux, heq, hval, hty]
            rw [hg]
            exact ih _ _ hrest
      · rw [if_neg hkey] at hbit ⊢
        have hg : lastModeTypeAux (bit :: rest) pt = lastModeTypeAux rest pt := by
          simp [lastModeTypeAux, heq, hkey]
        rw [hg]
        by_cases hsize : key = "size"
        · rw [if_pos hsize]
          exact ih _ _ hrest
        · rw [if_neg hsize] at hbit ⊢
          by_cases htime : timeKeys key = true
          · rw [if_pos htime] at hbit ⊢
            match hn : try_int value with
            | some n =>
              rw [hn] at hbit
              have hb : (decide (tsMin ≤ n) && decide (n ≤ tsMax)) = true := hbit
              simp only [hb, if_true]
              exact ih _ _ hrest
            | none =>
              exact ih _ _ hrest
          · rw [if_neg htime]
            exact ih _ _ hrest

/-- Counterexample for C4: a stat line whose mode flag resolves to
`directory` while the fact expects `file`, but whose second token is not of
`key=value` shape.  The claim says such a line yields absent; the code
raises (`ValueError` unpacking `"junk".split('=')`), modelled as `.err`. -/
theorem c4_mismatch_counterexample :
    lastModeTypeLine "mode=drwxr-xr-x junk f" = some "directory" ∧
    ("directory" : String) ≠ "file" ∧
    File.process "file" ["mode=drwxr-xr-x junk f"] = .err := by
  refine ⟨by decide, by decide, by decide⟩

/-- C4 (amended): a stat line whose mode type flag resolves to a type
different from the fact's declared type never yields a FileMetadata
record; it yields absent provided every `key=value` token parses (with a
malformed token elsewhere in the line the parse raises instead). -/
theorem c4_mismatch_never_metadata (ty ty2 line : String)
    (hres : lastModeTypeLine line = some ty2) (hne : ty2 ≠ ty) :
    (∀ d, File.process ty [line] ≠ .meta d) ∧
    ((statBitsOf line).all bitOK = true → File.process ty [line] = .absent) := by
  rcases hbits : pySplitWsMax line 7 with _ | ⟨b, bs⟩
  · exfalso
    unfold lastModeTypeLine statBitsOf at hres
    rw [hbits] at hres
    simp [lastModeTypeAux] at hres
  · have hstat : statBitsOf line = (b :: bs).dropLast := by
      unfold statBitsOf; rw [hbits]
    rcases hp : processBits ((b :: bs).dropLast) [] none with _ | ⟨data, pt⟩
    · have herr : File.process ty [line] = .err := by
        simp [File.process, hbits, hp]
      constructor
      · intro d hd
        rw [herr] at hd
        exact absurd hd (by simp)
      · intro hall
        rw [hstat] at hall
        obtain ⟨d1, hd1⟩ := processBits_ok _ [] none hall
        rw [hp] at hd1
        exact absurd hd1 (by simp)
    · have hpt : pt = some ty2 := by
        rw [processBits_pt _ [] none data pt hp]
        unfold lastModeTypeLine at hres
        rw [hstat] at hres
        exact hres
      have hgate : File.process ty [line] = .absent := by
        simp only [File.process, hbits, hp]
        rw [hpt, if_neg (by simp [hne])]
      exact ⟨fun d hd => by rw [hgate] at hd; exact absurd hd (by simp), fun _ => hgate⟩

/-- Witness for C4 at the spec's example: a Directory fact parsing a
well-formed line describing a regular file yields absent. -/
theorem c4_mismatch_never_metadata_witness :
    lastModeTypeLine "user=u group=g mode=-rw-r--r-- atime=0 mtime=0 ctime=0 size=1 f" =
      some "file" ∧
    File.process "directory"
      ["user=u group=g mode=-rw-r--r-- atime=0 mtime=0 ctime=0 size=1 f"] = .absent :=
  ⟨by decide,
    (c4_mismatch_never_metadata "directory" "file"
      "user=u group=g mode=-rw-r--r-- atime=0 mtime=0 ctime=0 size=1 f"
      (by decide) (by decide)).2 (by decide)⟩

theorem parse_mode_bounds (m : String) :
    _parse_mode m ≤ 777 ∧ _parse_mode m % 10 ≤ 7 ∧
    _parse_mode m / 10 % 10 ≤ 7 ∧ _parse_mode m / 100 ≤ 7 := by
  rw [parse_mode_eq]
  have h1 := digVal_le (pySlice m 0 3)
  have h2 := digVal_le (pySlice m 3 6)
  have h3 := digVal_le (pySlice m 6 9)
  omega

theorem File_process_meta_inv (ty line : String) (rest : List String) (d : StatData)
    (hp : File.process ty (line :: rest) = .meta d) :
    ∃ b bs data pt, pySplitWsMax line 7 = b :: bs ∧
      processBits ((b :: bs).dropLast) [] none = some (data, pt) ∧ pt = some ty ∧
      ((ty = "link" ∧ ∃ x1 x2, pySplit (bs.getLastD b) " -> " = [x1, x2] ∧
          d = dictSet data "link_target" (.vStr (pyStrip x2 squote))) ∨
        (ty ≠ "link" ∧ d = data)) := by
  rcases hbits : pySplitWsMax line 7 with _ | ⟨b, bs⟩
  · rw [show File.process ty (line :: rest) = .err from by
      simp [File.process, hbits]] at hp
    exact absurd hp (by simp)
  · rcases hpb : processBits ((b :: bs).dropLast) [] none with _ | ⟨data, pt⟩
    · rw [show File.process ty (line :: rest) = .err from by
        simp [File.process, hbits, hpb]] at hp
      exact absurd hp (by simp)
    · by_cases hgate : pt = some ty
      · subst hgate
        by_cases hlink : ty = "link"
        · subst hlink
          simp only [List.getLastD_eq_getLast?]
          rcases hsp : pySplit (bs.getLast?.getD b) " -> " with _ | ⟨x1, _ | ⟨x2, _ | ⟨x3, tl⟩⟩⟩
          · rw [show File.process "link" (line :: rest) = .err from by
              simp [File.process, hbits, hpb, hsp]] at hp
            exact absurd hp (by simp)
          · rw [show File.process "link" (line :: rest) = .err from by
              simp [File.process, hbits, hpb, hsp]] at hp
            exact absurd hp (by simp)
          · have hd : d = dictSet data "link_target" (.vStr (pyStrip x2 squote)) := by
              rw [show File.process "link" (line :: rest) =
                  .meta (dictSet data "link_target" (.vStr (pyStrip x2 squote))) from by
                simp [File.process, hbits, hpb, hsp]] at hp
              cases hp
              rfl
            exact ⟨b, bs, data, some "link", rfl, hpb, rfl, Or.inl ⟨by trivial, x1, x2, hsp, hd⟩⟩
          · rw [show File.process "link" (line :: rest) = .err from by
              simp [File.process, hbits, hpb, hsp]] at hp
            exact absurd hp (by simp)
        · have hd : d = data := by
            rw [show File.process ty (line :: rest) = .meta data from by
              simp [File.process, hbits, hpb, hlink]] at hp
            cases hp
            rfl
          exact ⟨b, bs, data, some ty, rfl, hpb, rfl, Or.inr ⟨hlink, hd⟩⟩
      · rw [show File.process ty (line :: rest) = .absent from by
          simp only [File.process, hbits, hpb]
          rw [if_neg hgate]] at hp
        exact absurd hp (by simp)

theorem processBits_mode (bits : List String) : ∀ (d : StatData) (pt : Option String)
    (d1 : StatData) (pt1 : Option String) (v : FieldValue),
    processBits bits d pt = some (d1, pt1) → dictGet d1 "mode" = some v →
    (∃ m : Nat, v = .vInt (m : Int) ∧ m ≤ 777 ∧ m % 10 ≤ 7 ∧ m / 10 % 10 ≤ 7 ∧ m / 100 ≤ 7) ∨
      dictGet d "mode" = some v := by
  induction bits with
  | nil =>
    intro d pt d1 pt1 v h hv
    simp only [processBits, Option.some.injEq, Prod.mk.injEq] at h
    right
    rw [h.1]
    exact hv
  | cons bit rest ih =>
    intro d pt d1 pt1 v h hv
    simp only [processBits] at h
    split at h
    case h_2 => exact absurd h (by simp)
    case h_1 key value heq =>
      by_cases hkey : key = "mode"
      · subst hkey
        rw [if_pos rfl] at h
        split at h
        next hval => exact absurd h (by simp)
        next flag perms hval =>
          split at h
          next hty => exact absurd h (by simp)
          next ty hty =>
            rcases ih _ _ _ _ _ h hv with hL | hR
            · exact Or.inl hL
            · rw [dictGet_dictSet, if_pos rfl] at hR
              left
              refine ⟨_parse_mode (String.mk perms), ?_, (parse_mode_bounds _).1,
                (parse_mode_bounds _).2.1, (parse_mode_bounds _).2.2.1,
                (parse_mode_bounds _).2.2.2⟩
              cases hR
              rfl
      · rw [if_neg hkey] at h
        by_cases hsize : key = "size"
        · rw [if_pos hsize] at h
          rcases ih _ _ _ _ _ h hv with hL | hR
          · exact Or.inl hL
          · rw [dictGet_dictSet, if_neg (hsize ▸ hkey)] at hR
            exact Or.inr hR
        · rw [if_neg hsize] at h
          by_cases htime : timeKeys key = true
          · rw [if_pos htime] at h
            split at h
            next n hn =>
              split at h
              · rcases ih _ _ _ _ _ h hv with hL | hR
                · exact Or.inl hL
                · rw [dictGet_dictSet, if_neg hkey] at hR
                  exact Or.inr hR
              · exact absurd h (by simp)
            next hn =>
              rcases ih _ _ _ _ _ h hv with hL | hR
              · exact Or.inl hL
              · rw [dictGet_dictSet, if_neg hkey] at hR
                exact Or.inr hR
          · rw [if_neg htime] at h
            rcases ih _ _ _ _ _ h hv with hL | hR
            · exact Or.inl hL
            · rw [dictGet_dictSet, if_neg hkey] at hR
              exact Or.inr hR

/-- Counterexample for C2: a stat line with permissions `rwxrwxrwx` is
accepted and yields `mode = 777` (the decimal number spelled from the octal
digits), which is outside the claimed range 0–511. -/
theorem c2_mode_counterexample :
    File.process "file"
        ["user=root group=root mode=-rwxrwxrwx atime=0 mtime=0 ctime=0 size=0 f"] =
      .meta [("user", .vStr "root"), ("group", .vStr "root"), ("mode", .vInt 777),
        ("atime", .vTime 0), ("mtime", .vTime 0), ("ctime", .vTime 0),
        ("size", .vInt 0)] ∧
    dictGet [("user", .vStr "root"), ("group", .vStr "root"), ("mode", .vInt 777),
        ("atime", .vTime 0), ("mtime", .vTime 0), ("ctime", .vTime 0),
        ("size", .vInt 0)] "mode" = some (.vInt 777) ∧
    ¬((777 : Int) ≤ 511) :=
  ⟨by decide, by decide, by decide⟩

/-- C2 (amended): in every FileMetadata record produced by `File.process`,
the `mode` entry is an integer of the form `100·a + 10·b + c` with each
decimal digit at most 7 — i.e. between 0 and 777 (decimal), not 0–511. -/
theorem c2_mode_digit_bounds (ty : String) (output : List String) (d : StatData)
    (v : FieldValue) (hp : File.process ty output = .meta d)
    (hv : dictGet d "mode" = some v) :
    ∃ m : Nat, v = .vInt (m : Int) ∧ m ≤ 777 ∧ m % 10 ≤ 7 ∧ m / 10 % 10 ≤ 7 ∧
      m / 100 ≤ 7 := by
  match output with
  | [] => exact absurd hp (by simp [File.process])
  | line :: rest =>
    obtain ⟨b, bs, data, pt, hbits, hpb, hpt, hcase⟩ := File_process_meta_inv ty line rest d hp
    have hdata : dictGet data "mode" = some v := by
      rcases hcase with ⟨hty, x1, x2, hsp, hd⟩ | ⟨hty, hd⟩
      · rw [hd, dictGet_dictSet, if_neg (by decide)] at hv
        exact hv
      · rw [hd] at hv
        exact hv
    rcases processBits_mode _ _ _ _ _ _ hpb hdata with hL | hR
    · exact hL
    · exact absurd hR (by simp [dictGet])

/-- Witness for C2 (amended) on a well-formed `rw-r--r--` line: the mode
entry is 644 with all three digits at most 7. -/
theorem c2_mode_digit_bounds_witness :
    File.process "file"
        ["user=u group=g mode=-rw-r--r-- atime=0 mtime=0 ctime=0 size=1 f"] =
      .meta [("user", .vStr "u"), ("group", .vStr "g"), ("mode", .vInt 644),
        ("atime", .vTime 0), ("mtime", .vTime 0), ("ctime", .vTime 0),
        ("size", .vInt 1)] ∧
    (∃ m : Nat, FieldValue.vInt 644 = .vInt (m : Int) ∧ m ≤ 777 ∧ m % 10 ≤ 7 ∧
      m / 10 % 10 ≤ 7 ∧ m / 100 ≤ 7) :=
  ⟨by decide,
    c2_mode_digit_bounds "file"
      ["user=u group=g mode=-rw-r--r-- atime=0 mtime=0 ctime=0 size=1 f"]
      [("user", .vStr "u"), ("group", .vStr "g"), ("mode", .vInt 644),
        ("atime", .vTime 0), ("mtime", .vTime 0), ("ctime", .vTime 0),
        ("size", .vInt 1)]
      (.vInt 644) (by decide) (by decide)⟩

/-- Counterexample for C3: on a line containing a token without `=`, the
parser raises (`ValueError` unpacking `"foo".split('=')`) instead of
degrading locally — the claim's "never raises" is false. -/
theorem c3_nonkv_counterexample :
    File.process "file" ["foo bar"] = .err := by decide

/-- C3 (amended): malformed permission groups and non-numeric size or
timestamp values degrade locally, and on lines passing `lineOK` — every
token of `key=value` shape, mode flags known, numeric timestamps in the
`utcfromtimestamp` range, link filenames splitting in two — the parse
returns metadata or absent, never raising; but a token that is not of
`key=value` shape, an empty or unknown mode type flag, or an out-of-range
timestamp raises. -/
theorem c3_wellformed_no_error (ty line : String) (hok : lineOK ty line = true) :
    File.process ty [line] ≠ .err := by
  intro hp
  rcases hbits : pySplitWsMax line 7 with _ | ⟨b, bs⟩
  · simp only [lineOK, hbits] at hok
    exact absurd hok (by simp)
  · simp only [lineOK, hbits, Bool.and_eq_true] at hok
    obtain ⟨hall, hlink⟩ := hok
    obtain ⟨d1, hd1⟩ := processBits_ok ((b :: bs).dropLast) [] none hall
    by_cases hgate : lastModeTypeAux ((b :: bs).dropLast) none = some ty
    · by_cases hl : ty = "link"
      · subst hl
        rw [if_pos ⟨hgate, rfl⟩] at hlink
        obtain ⟨x1, x2, hsp⟩ := List.length_eq_two.mp (of_decide_eq_true hlink)
        rw [List.getLastD_eq_getLast?] at hsp
        rw [show File.process "link" [line] =
            .meta (dictSet d1 "link_target" (.vStr (pyStrip x2 squote))) from by
          simp [File.process, hbits, hd1, hgate, hsp]] at hp
        exact absurd hp (by simp)
      · rw [show File.process ty [line] = .meta d1 from by
          simp [File.process, hbits, hd1, hgate, hl]] at hp
        exact absurd hp (by simp)
    · rw [show File.process ty [line] = .absent from by
        simp only [File.process, hbits, hd1]
        rw [if_neg hgate]] at hp
      exact absurd hp (by simp)

/-- Witness for C3 (amended) on a well-formed regular-file line. -/
theorem c3_wellformed_no_error_witness :
    lineOK "file" "user=root group=root mode=-rw-r--r-- atime=0 mtime=0 ctime=0 size=5 f" =
      true ∧
    File.process "file"
      ["user=root group=root mode=-rw-r--r-- atime=0 mtime=0 ctime=0 size=5 f"] ≠ .err :=
  ⟨by decide,
    c3_wellformed_no_error "file"
      "user=root group=root mode=-rw-r--r-- atime=0 mtime=0 ctime=0 size=5 f" (by decide)⟩

theorem dictGet_isSome_dictSet (d : StatData) (k key : String) (v : FieldValue) :
    (dictGet (dictSet d key v) k).isSome = true ↔
      key = k ∨ (dictGet d k).isSome = true := by
  rw [dictGet_dictSet]
  by_cases hk : key = k <;> simp [hk]

theorem processBits_keys (bits : List String) : ∀ (d : StatData) (pt : Option String)
    (d1 : StatData) (pt1 : Option String) (k : String),
    processBits bits d pt = some (d1, pt1) →
    ((dictGet d1 k).isSome = true ↔
      ((dictGet d k).isSome = true ∨ ∃ b ∈ bits, tokKey b = k)) := by
  induction bits with
  | nil =>
    intro d pt d1 pt1 k h
    simp only [processBits, Option.some.injEq, Prod.mk.injEq] at h
    rw [← h.1]
    simp
  | cons bit rest ih =>
    intro d pt d1 pt1 k h
    simp only [processBits] at h
    split at h
    case h_2 => exact absurd h (by simp)
    case h_1 key value heq =>
      have htok : tokKey bit = key := by simp [tokKey, heq]
      have hcons : (∃ x ∈ bit :: rest, tokKey x = k) ↔
          (tokKey bit = k ∨ ∃ x ∈ rest, tokKey x = k) := by
        simp
      by_cases hkey : key = "mode"
      · subst hkey
        rw [if_pos rfl] at h
        split at h
        next hval => exact absurd h (by simp)
        next flag perms hval =>
          split at h
          next hty => exact absurd h (by simp)
          next ty hty =>
            rw [ih _ _ _ _ k h, dictGet_isSome_dictSet, hcons, htok]
            tauto
      · rw [if_neg hkey] at h
        by_cases hsize : key = "size"
        · rw [if_pos hsize] at h
          rw [ih _ _ _ _ k h, dictGet_isSome_dictSet, hcons, htok]
          tauto
        · rw [if_neg hsize] at h
          by_cases htime : timeKeys key = true
          · rw [if_pos htime] at h
            split at h
            next n hn =>
              split at h
              · rw [ih _ _ _ _ k h, dictGet_isSome_dictSet, hcons, htok]
                tauto
              · exact absurd h (by simp)
            next hn =>
              rw [ih _ _ _ _ k h, dictGet_isSome_dictSet, hcons, htok]
              tauto
          · rw [if_neg htime] at h
            rw [ih _ _ _ _ k h, dictGet_isSome_dictSet, hcons, htok]
            tauto

/-- Counterexample for C8's "iff" direction: a stat output line that itself
carries a `link_target=x` token makes `File.process` (a `file`-typed fact)
return metadata containing `link_target` although the type is not `link`. -/
theorem c8_injected_link_target_counterexample :
    File.process "file"
        ["user=u group=g mode=-rwxr-xr-- atime=0 mtime=0 ctime=0 link_target=x f"] =
      .meta [("user", .vStr "u"), ("group", .vStr "g"), ("mode", .vInt 754),
        ("atime", .vTime 0), ("mtime", .vTime 0), ("ctime", .vTime 0),
        ("link_target", .vStr "x")] ∧
    dictGet [("user", .vStr "u"), ("group", .vStr "g"), ("mode", .vInt 754),
        ("atime", .vTime 0), ("mtime", .vTime 0), ("ctime", .vTime 0),
        ("link_target", .vStr "x")] "link_target" = some (.vStr "x") ∧
    ("file" : String) ≠ "link" :=
  ⟨by decide, by decide, by decide⟩

/-- C8 (amended): in a parsed FileMetadata, for a link-typed fact the
filename is split on `" -> "` and the quote-stripped target is stored under
`link_target` (so `link_target` is present); for a non-link fact the parser
itself never adds `link_target`, which is present exactly when some
`key=value` token of the line has key `link_target`. -/
theorem c8_link_target_characterization (ty line : String) (d : StatData)
    (hp : File.process ty [line] = .meta d) :
    ((dictGet d "link_target").isSome = true ↔
      (ty = "link" ∨ ∃ b ∈ statBitsOf line, tokKey b = "link_target")) ∧
    (ty = "link" → dictGet d "link_target" = some (.vStr (linkTargetOfLine line))) := by
  obtain ⟨b, bs, data, pt, hbits, hpb, hpt, hcase⟩ := File_process_meta_inv ty line [] d hp
  have hstat : statBitsOf line = (b :: bs).dropLast := by
    unfold statBitsOf
    rw [hbits]
  rcases hcase with ⟨hty, x1, x2, hsp, hd⟩ | ⟨hty, hd⟩
  · subst hty
    constructor
    · rw [hd, dictGet_isSome_dictSet]
      simp
    · intro _
      rw [hd, dictGet_dictSet, if_pos rfl]
      have hlt : linkTargetOfLine line = pyStrip x2 squote := by
        rw [List.getLastD_eq_getLast?] at hsp
        simp [linkTargetOfLine, hbits, hsp]
      rw [hlt]
  · constructor
    · rw [hd, processBits_keys _ _ _ _ _ "link_target" hpb, hstat]
      simp [dictGet, hty]
    · intro h
      exact absurd h hty

/-- Witness for C8 at the spec's example: a link line whose filename field
is `'/a -> /b'` parses with `link_target = "/b"` (trailing quote
stripped). -/
theorem c8_link_target_characterization_witness :
    File.process "link"
        ["user=u group=g mode=lrwxrwxrwx atime=0 mtime=0 ctime=0 size=2 " ++
          String.mk [squote] ++ "/a -> /b" ++ String.mk [squote]] =
      .meta [("user", .vStr "u"), ("group", .vStr "g"), ("mode", .vInt 777),
        ("atime", .vTime 0), ("mtime", .vTime 0), ("ctime", .vTime 0),
        ("size", .vInt 2), ("link_target", .vStr "/b")] ∧
    dictGet [("user", .vStr "u"), ("group", .vStr "g"), ("mode", .vInt 777),
        ("atime", .vTime 0), ("mtime", .vTime 0), ("ctime", .vTime 0),
        ("size", .vInt 2), ("link_target", .vStr "/b")] "link_target" =
      some (.vStr "/b") := by
  refine ⟨by decide, ?_⟩
  have h := (c8_link_target_characterization "link"
    ("user=u group=g mode=lrwxrwxrwx atime=0 mtime=0 ctime=0 size=2 " ++
      String.mk [squote] ++ "/a -> /b" ++ String.mk [squote])
    [("user", .vStr "u"), ("group", .vStr "g"), ("mode", .vInt 777),
      ("atime", .vTime 0), ("mtime", .vTime 0), ("ctime", .vTime 0),
      ("size", .vInt 2), ("link_target", .vStr "/b")] (by decide)).2 rfl
  have hlt : linkTargetOfLine
      ("user=u group=g mode=lrwxrwxrwx atime=0 mtime=0 ctime=0 size=2 " ++
        String.mk [squote] ++ "/a -> /b" ++ String.mk [squote]) = "/b" := by decide
  rw [hlt] at h
  exact h

/-- C5 (code bug): `Md5File`'s second regex template spells the literal
`SHA256` instead of `MD5` (a copy-paste of the Sha256 fact's pattern), so
the BSD-style line `MD5 (<path>) = <digest>` that the `md5` fallback tool
actually prints is rejected (absent), while a line spelling `SHA256` —
which no MD5 tool emits — would be accepted.  The claim's described
behaviour (returning the digest of the `MD5 (...)` line) is the evident
intent; the first conjunct evaluates the code at the failing input. -/
theorem c5_md5_bsd_line_rejected :
    Md5File.process (Md5File.command "" "/tmp/x").2
        ["MD5 (/tmp/x) = aaaaaaaaaaaaaaaaaaaaaaaaaaaaaaaa"] = .absent ∧
    Md5File.process (Md5File.command "" "/tmp/x").2
        ["SHA256 (/tmp/x) = aaaaaaaaaaaaaaaaaaaaaaaaaaaaaaaa"] =
      .digest "aaaaaaaaaaaaaaaaaaaaaaaaaaaaaaaa" :=
  ⟨by decide, by decide⟩

/-- Counterexample for C6's third branch: on empty output
`FindInFile.process` returns the empty list — a list, not an absent
marker.  (Its codomain contains no absent value at all; absence for a
missing file arises from the command's nonzero exit status and the fact
framework's `use_default_on_error`, outside `process`.) -/
theorem c6_empty_output_counterexample :
    FindInFile.process "/tmp/x" [] = ([] : List String) := rfl

/-- C6 (amended): `FindInFile.process` is two-way, not three-way: a first
output line equal to the sentinel for the stored path yields the empty
match list; otherwise the raw output lines come back verbatim; empty
output yields the empty list rather than an absent value. -/
theorem c6_sentinel_or_verbatim (name l1 : String) (rest : List String) :
    FindInFile.process name [] = [] ∧
    FindInFile.process name (("__pyinfra_exists_" ++ name) :: rest) = [] ∧
    (l1 ≠ "__pyinfra_exists_" ++ name →
      FindInFile.process name (l1 :: rest) = l1 :: rest) := by
  refine ⟨rfl, ?_, ?_⟩
  · simp [FindInFile.process]
  · intro h
    simp [FindInFile.process, h]

/-- Witness for C6 (amended): two grep-matched lines come back verbatim
for path `/tmp/x`. -/
theorem c6_sentinel_or_verbatim_witness :
    ("match1" : String) ≠ "__pyinfra_exists_" ++ "/tmp/x" ∧
    FindInFile.process "/tmp/x" ["match1", "match2"] = ["match1", "match2"] :=
  ⟨by decide, (c6_sentinel_or_verbatim "/tmp/x" "match1" ["match2"]).2.2 (by decide)⟩

/-- C10: `FindInFile.process` decides the sentinel case from the first
output line alone — whenever it equals `__pyinfra_exists_<stored path>`
the result is the empty list, whatever lines follow; in particular a file
whose grep-matched first line is the literal sentinel text is reported as
an empty match list although the pattern did match. -/
theorem c10_first_line_sentinel (name : String) (rest : List String) :
    FindInFile.process name (("__pyinfra_exists_" ++ name) :: rest) = [] := by
  simp [FindInFile.process]

/-- Counterexample for C9: the per-invocation parse context is not local to
a call — `self.name` is instance state overwritten by each `command`, so
building for `/tmp/x`, then for `/tmp/y`, then parsing `/tmp/x`'s output
gives a different result (absent) than building for `/tmp/x` alone (the
digest). -/
theorem c9_interleaving_counterexample :
    Sha1File.process (Sha1File.command (Sha1File.command "" "/tmp/x").2 "/tmp/y").2
        ["aaaaaaaaaaaaaaaaaaaaaaaaaaaaaaaaaaaaaaaa  /tmp/x"] ≠
      Sha1File.process (Sha1File.command "" "/tmp/x").2
        ["aaaaaaaaaaaaaaaaaaaaaaaaaaaaaaaaaaaaaaaa  /tmp/x"] := by decide

/-- C9 (amended): the parse context is instance state that each `command`
call overwrites, so parsing after `command p1; command p2` behaves exactly
like parsing after `command p2` alone (the most recent build governs, for
any prior state), for both `Sha1File` and `FindInFile`; sequential
build-then-parse per invocation is safe, interleaving is not. -/
theorem c9_last_command_governs (s1 s2 p1 p2 : String) (out : List String) :
    Sha1File.process (Sha1File.command (Sha1File.command s1 p1).2 p2).2 out =
      Sha1File.process (Sha1File.command s2 p2).2 out ∧
    ∀ (pat1 pat2 : String),
      FindInFile.process
          (FindInFile.command (FindInFile.command s1 p1 pat1).2 p2 pat2).2 out =
        FindInFile.process (FindInFile.command s2 p2 pat2).2 out :=
  ⟨rfl, fun _ _ => rfl⟩

/-- Counterexample for C7: the requested path is spliced raw into the
regex, so the different path `/tmp/.` (with `.` matching any character)
accepts the digest reported for `/tmp/x` — "any different path returns
absent" is false. -/
theorem c7_metachar_path_counterexample :
    ("/tmp/." : String) ≠ "/tmp/x" ∧
    Sha1File.process (Sha1File.command "" "/tmp/.").2
        ["aaaaaaaaaaaaaaaaaaaaaaaaaaaaaaaaaaaaaaaa  /tmp/x"] =
      .digest "aaaaaaaaaaaaaaaaaaaaaaaaaaaaaaaaaaaaaaaa" :=
  ⟨by decide, by decide⟩


theorem regexLiteralChar_ne (c : Char) (h : regexLiteralChar c = true)
    (x : Char) (hx : regexLiteralChar x = false) : c ≠ x := by
  intro he
  subst he
  rw [h] at hx
  cases hx

theorem litChar_not_meta (c : Char) (h : regexLiteralChar c = true) :
    reMetaCheck c = false := by
  have ne := regexLiteralChar_ne c h
  simp only [reMetaCheck, Bool.or_eq_false_iff, decide_eq_false_iff_not]
  exact ⟨⟨⟨⟨⟨⟨⟨⟨⟨⟨⟨⟨ne '^' (by decide), ne '$' (by decide)⟩, ne '*' (by decide)⟩,
    ne '+' (by decide)⟩, ne '?' (by decide)⟩, ne '{' (by decide)⟩, ne '}' (by decide)⟩,
    ne '[' (by decide)⟩, ne ']' (by decide)⟩, ne '(' (by decide)⟩, ne ')' (by decide)⟩,
    ne '|' (by decide)⟩, ne '\\' (by decide)⟩

theorem hex_isAlnum (c : Char) (h : isHexAscii c = true) : isAlnumAscii c = true := by
  simp only [isHexAscii, Bool.or_eq_true, Bool.and_eq_true, decide_eq_true_eq] at h
  simp only [isAlnumAscii, Bool.or_eq_true, Bool.and_eq_true, decide_eq_true_eq]
  rcases h with (h | h) | h
  · exact Or.inl (Or.inl h)
  · exact Or.inl (Or.inr ⟨h.1, le_trans h.2 (by decide)⟩)
  · exact Or.inr ⟨h.1, le_trans h.2 (by decide)⟩

theorem hex_all_alnum (l : List Char) (h : l.all isHexAscii = true) :
    l.all isAlnumAscii = true := by
  rw [List.all_eq_true] at h ⊢
  exact fun c hc => hex_isAlnum c (h c hc)

theorem hex_ne_S (c : Char) (h : isHexAscii c = true) : c ≠ 'S' := by
  intro he
  subst he
  exact absurd h (by decide)

theorem escape_no_space (l : List Char) (h : l.all (fun c => !(c = ' ')) = true) :
    escape_unix_path (String.mk l) = String.mk l := by
  unfold escape_unix_path
  congr 1
  induction l with
  | nil => rfl
  | cons c l1 ih =>
    rw [List.all_cons, Bool.and_eq_true] at h
    simp only [List.foldr_cons]
    rw [if_neg (by simpa using h.1), ih h.2]

theorem litSafe_no_space (l : List Char) (h : l.all regexLiteralChar = true) :
    l.all (fun c => !(c = ' ')) = true := by
  rw [List.all_eq_true] at h ⊢
  intro c hc
  have := regexLiteralChar_ne c (h c hc) ' ' (by decide)
  simpa using this

theorem runRE_lits (l : List Char) : ∀ (s : List Char),
    runRE (l.map RTok.lit) s = if s = l then [[]] else [] := by
  induction l with
  | nil =>
    intro s
    cases s <;> simp [runRE]
  | cons c l1 ih =>
    intro s
    cases s with
    | nil => simp [runRE]
    | cons x xs =>
      simp only [List.map_cons, runRE]
      by_cases hx : x = c
      · subst hx
        rw [if_pos rfl, ih]
        by_cases h2 : xs = l1 <;> simp [h2]
      · rw [if_neg hx]
        simp [hx]

theorem runRE_grp (n : Nat) (r : List RTok) (a s : List Char)
    (hlen : a.length = n) (hall : a.all isAlnumAscii = true) :
    runRE (RTok.grpAlnum n :: r) (a ++ s) =
      (runRE r s).map (fun caps => String.mk a :: caps) := by
  simp only [runRE]
  have h1 : (a ++ s).take n = a := by rw [← hlen]; exact List.take_left a s
  have h2 : (a ++ s).drop n = s := by rw [← hlen]; exact List.drop_left a s
  rw [h1, h2, if_pos]
  simp only [Bool.and_eq_true, decide_eq_true_eq, List.length_append, hall, and_true]
  omega

theorem compAux_lit_append (l : List Char) : ∀ (fuel : Nat) (rest : List Char),
    l.all regexLiteralChar = true →
    compAux (l.length + fuel) (l ++ rest) =
      (compAux fuel rest).map (fun t => l.map RTok.lit ++ t) := by
  induction l with
  | nil =>
    intro fuel rest _
    simp only [List.length_nil, Nat.zero_add, List.nil_append, List.map_nil]
    cases h : compAux fuel rest <;> simp
  | cons c l1 ih =>
    intro fuel rest h
    rw [List.all_cons, Bool.and_eq_true] at h
    obtain ⟨hc, hl⟩ := h
    have ne := regexLiteralChar_ne c hc
    rw [show (c :: l1).length + fuel = (l1.length + fuel) + 1 from by
      simp only [List.length_cons]; omega]
    rw [List.cons_append]
    simp only [compAux]
    rw [if_neg (ne '$' (by decide)), if_neg (ne '\\' (by decide)),
      if_neg (ne '(' (by decide)), if_neg (ne '.' (by decide)),
      litChar_not_meta c hc]
    simp only [Bool.false_eq_true, if_false]
    rw [ih fuel rest hl, Option.map_map]
    rfl

theorem compAux_gnu_head (F : Nat) (tail : List Char) :
    compAux (F + 2) (("([a-zA-Z0-9]{40})\\s+" : String).data ++ tail) =
      ((compAux F tail).map (fun t => RTok.spacePlus :: t)).map
        (fun t => RTok.grpAlnum 40 :: t) := rfl

theorem compAux_bsd_head (F : Nat) (tail : List Char) :
    compAux (F + 6) (("SHA1\\s+\\(" : String).data ++ tail) =
      ((((((compAux F tail).map (fun t => RTok.lit '(' :: t)).map
        (fun t => RTok.spacePlus :: t)).map (fun t => RTok.lit '1' :: t)).map
        (fun t => RTok.lit 'A' :: t)).map (fun t => RTok.lit 'H' :: t)).map
        (fun t => RTok.lit 'S' :: t) := rfl

theorem compile_gnu40 (l : List Char) (hl : l.all regexLiteralChar = true) :
    compile (pyPctS "^([a-zA-Z0-9]{40})\\s+%s$" (String.mk l)) =
      some (RTok.grpAlnum 40 :: RTok.spacePlus :: l.map RTok.lit) := by
  show compAux (("([a-zA-Z0-9]{40})\\s+" : String).data ++ (l ++ ['$'])).length
      (("([a-zA-Z0-9]{40})\\s+" : String).data ++ (l ++ ['$'])) = _
  rw [show (("([a-zA-Z0-9]{40})\\s+" : String).data ++ (l ++ ['$'])).length =
      (l.length + 19) + 2 from by
    simp only [List.length_append, List.length_cons, List.length_nil]
    omega]
  rw [compAux_gnu_head (l.length + 19) (l ++ ['$'])]
  rw [compAux_lit_append l 19 ['$'] hl]
  rw [show compAux 19 ['$'] = some [] from rfl]
  simp

theorem compile_bsd40 (l : List Char) (hl : l.all regexLiteralChar = true) :
    compile (pyPctS "^SHA1\\s+\\(%s\\)\\s+=\\s+([a-zA-Z0-9]{40})$" (String.mk l)) =
      some (RTok.lit 'S' :: RTok.lit 'H' :: RTok.lit 'A' :: RTok.lit '1' ::
        RTok.spacePlus :: RTok.lit '(' :: l.map RTok.lit ++
        [RTok.lit ')', RTok.spacePlus, RTok.lit '=', RTok.spacePlus,
          RTok.grpAlnum 40]) := by
  show compAux
      (("SHA1\\s+\\(" : String).data ++
        (l ++ ("\\)\\s+=\\s+([a-zA-Z0-9]{40})$" : String).data)).length
      (("SHA1\\s+\\(" : String).data ++
        (l ++ ("\\)\\s+=\\s+([a-zA-Z0-9]{40})$" : String).data)) = _
  rw [show (("SHA1\\s+\\(" : String).data ++
      (l ++ ("\\)\\s+=\\s+([a-zA-Z0-9]{40})$" : String).data)).length =
      (l.length + 30) + 6 from by
    simp only [List.length_append, List.length_cons, List.length_nil]
    omega]
  rw [compAux_bsd_head (l.length + 30)
    (l ++ ("\\)\\s+=\\s+([a-zA-Z0-9]{40})$" : String).data)]
  rw [compAux_lit_append l 30 (("\\)\\s+=\\s+([a-zA-Z0-9]{40})$" : String).data) hl]
  rw [show compAux 30 (("\\)\\s+=\\s+([a-zA-Z0-9]{40})$" : String).data) =
      some [RTok.lit ')', RTok.spacePlus, RTok.lit '=', RTok.spacePlus,
        RTok.grpAlnum 40] from rfl]
  simp

theorem sha1_gnu_match_pos (ld : List Char) (h40 : ld.length = 40)
    (hall : ld.all isAlnumAscii = true) :
    runRE (RTok.grpAlnum 40 :: RTok.spacePlus :: ("/tmp/x" : String).data.map RTok.lit)
      (ld ++ ("  /tmp/x" : String).data) = [[String.mk ld]] := by
  rw [runRE_grp 40 _ ld _ h40 hall]
  rw [show runRE (RTok.spacePlus :: ("/tmp/x" : String).data.map RTok.lit)
      (("  /tmp/x" : String).data) = [[]] from by decide]
  rfl

theorem sha1_gnu_match_neg (ld lq : List Char) (h40 : ld.length = 40)
    (hall : ld.all isAlnumAscii = true) (hq : lq.all regexLiteralChar = true)
    (hne : lq ≠ ("/tmp/x" : String).data) :
    runRE (RTok.grpAlnum 40 :: RTok.spacePlus :: lq.map RTok.lit)
      (ld ++ ("  /tmp/x" : String).data) = [] := by
  rw [runRE_grp 40 _ ld _ h40 hall]
  rw [show ("  /tmp/x" : String).data = ' ' :: ' ' :: ("/tmp/x" : String).data from rfl]
  simp only [runRE]
  rw [show spaceTails (' ' :: ' ' :: ("/tmp/x" : String).data) =
    [("/tmp/x" : String).data, ' ' :: ("/tmp/x" : String).data] from by decide]
  simp only [List.flatMap_cons, List.flatMap_nil, List.append_nil]
  rw [runRE_lits, runRE_lits]
  rw [if_neg (fun he => hne he.symm), if_neg ?hsp]
  · simp
  case hsp =>
    intro he
    rw [← he] at hq
    have hf : regexLiteralChar ' ' = false := by decide
    rw [List.all_cons, hf] at hq
    simp at hq

theorem sha1_bsd_match_neg (ld rest2 : List Char) (R : List RTok)
    (hld : ld ≠ []) (hhex : ld.all isHexAscii = true) :
    runRE (RTok.lit 'S' :: R) (ld ++ rest2) = [] := by
  cases ld with
  | nil => exact absurd rfl hld
  | cons c cs =>
    rw [List.cons_append]
    rw [List.all_cons, Bool.and_eq_true] at hhex
    simp only [runRE]
    rw [if_neg (hex_ne_S c hhex.1)]

/-- C7 (amended): a digest is accepted exactly against the requested path
for paths built from characters with no regex meaning: parsing
`<40-hex-digest>␣␣/tmp/x` after building the command for `/tmp/x` returns
the digest, and after building the command for any *different* path made
of alphanumerics, `/`, `_`, `-` it returns absent.  (As the counterexample
shows, the original claim's "any different path" fails for paths containing
regex metacharacters, since the path is spliced raw into the pattern.) -/
theorem c7_path_bound_digest (d q : String)
    (hlen : d.data.length = 40) (hhex : d.data.all isHexAscii = true)
    (hq : q.data.all regexLiteralChar = true) (hne : q ≠ "/tmp/x") :
    Sha1File.process (Sha1File.command "" "/tmp/x").2 [d ++ "  /tmp/x"] =
      .digest d ∧
    Sha1File.process (Sha1File.command "" q).2 [d ++ "  /tmp/x"] = .absent := by
  obtain ⟨ld⟩ := d
  obtain ⟨lq⟩ := q
  have hallA : ld.all isAlnumAscii = true := hex_all_alnum ld hhex
  have hdat : (String.mk ld ++ "  /tmp/x").data = ld ++ ("  /tmp/x" : String).data := rfl
  constructor
  · show tryRegexList Sha1File.regexes "/tmp/x" (String.mk ld ++ "  /tmp/x") = _
    have hm : reMatchGroup1 (pyPctS "^([a-zA-Z0-9]{40})\\s+%s$" "/tmp/x")
        (String.mk ld ++ "  /tmp/x") = some (some (String.mk ld)) := by
      unfold reMatchGroup1
      rw [show compile (pyPctS "^([a-zA-Z0-9]{40})\\s+%s$" "/tmp/x") =
        some (RTok.grpAlnum 40 :: RTok.spacePlus ::
          ("/tmp/x" : String).data.map RTok.lit) from by decide]
      rw [Option.some_bind, hdat, sha1_gnu_match_pos ld hlen hallA]
      rfl
    simp only [Sha1File.regexes, tryRegexList, hm]
  · have hesc : (Sha1File.command "" (String.mk lq)).2 = String.mk lq := by
      show escape_unix_path (String.mk lq) = String.mk lq
      exact escape_no_space lq (litSafe_no_space lq hq)
    rw [hesc]
    have hne1 : lq ≠ ("/tmp/x" : String).data := fun hll => hne (congrArg String.mk hll)
    have hld : ld ≠ [] := by
      intro he
      rw [he] at hlen
      exact absurd hlen (by decide)
    show tryRegexList Sha1File.regexes (String.mk lq) (String.mk ld ++ "  /tmp/x") = _
    have hm1 : reMatchGroup1 (pyPctS "^([a-zA-Z0-9]{40})\\s+%s$" (String.mk lq))
        (String.mk ld ++ "  /tmp/x") = none := by
      unfold reMatchGroup1
      rw [compile_gnu40 lq hq, Option.some_bind, hdat]
      rw [sha1_gnu_match_neg ld lq hlen hallA hq hne1]
    have hm2 : reMatchGroup1
        (pyPctS "^SHA1\\s+\\(%s\\)\\s+=\\s+([a-zA-Z0-9]{40})$" (String.mk lq))
        (String.mk ld ++ "  /tmp/x") = none := by
      unfold reMatchGroup1
      rw [compile_bsd40 lq hq, Option.some_bind, hdat]
      rw [show (RTok.lit 'S' :: RTok.lit 'H' :: RTok.lit 'A' :: RTok.lit '1' ::
        RTok.spacePlus :: RTok.lit '(' :: lq.map RTok.lit ++
        [RTok.lit ')', RTok.spacePlus, RTok.lit '=', RTok.spacePlus,
          RTok.grpAlnum 40]) = RTok.lit 'S' :: (RTok.lit 'H' :: RTok.lit 'A' ::
        RTok.lit '1' :: RTok.spacePlus :: RTok.lit '(' :: lq.map RTok.lit ++
        [RTok.lit ')', RTok.spacePlus, RTok.lit '=', RTok.spacePlus,
          RTok.grpAlnum 40]) from rfl]
      rw [sha1_bsd_match_neg ld ("  /tmp/x" : String).data _ hld hhex]
    simp only [Sha1File.regexes, tryRegexList, hm1, hm2]

/-- Witness for C7 (amended) at a concrete digest and the different path
`/tmp/y`. -/
theorem c7_path_bound_digest_witness :
    ("aaaaaaaaaaaaaaaaaaaaaaaaaaaaaaaaaaaaaaaa" : String).data.length = 40 ∧
    ("aaaaaaaaaaaaaaaaaaaaaaaaaaaaaaaaaaaaaaaa" : String).data.all isHexAscii = true ∧
    ("/tmp/y" : String).data.all regexLiteralChar = true ∧
    ("/tmp/y" : String) ≠ "/tmp/x" ∧
    (Sha1File.process (Sha1File.command "" "/tmp/x").2
        ["aaaaaaaaaaaaaaaaaaaaaaaaaaaaaaaaaaaaaaaa" ++ "  /tmp/x"] =
      .digest "aaaaaaaaaaaaaaaaaaaaaaaaaaaaaaaaaaaaaaaa" ∧
    Sha1File.process (Sha1File.command "" "/tmp/y").2
        ["aaaaaaaaaaaaaaaaaaaaaaaaaaaaaaaaaaaaaaaa" ++ "  /tmp/x"] = .absent) :=
  ⟨by decide, by decide, by decide, by decide,
    c7_path_bound_digest "aaaaaaaaaaaaaaaaaaaaaaaaaaaaaaaaaaaaaaaa" "/tmp/y"
      (by decide) (by decide) (by decide) (by decide)⟩
